import Mathlib

/-!
Verification of the webhook ingestion pipeline against its specification.

The definitions below are a shallow embedding of the TypeScript source in
`src/webhookHandler.ts` (priority job queue, batch processor, change-set
extractor, webhook orchestrator) and `src/convertMdxContentToMd.ts` (the MDX
preprocessing stage of the content normalizer).  Strings are modelled by
`List Char` where character-level computation is needed; JavaScript's
truthiness, `Map` lookups, and remote calls are made explicit (oracles are
passed as function parameters).
-/

/-- Decidable equality for `Except` results (used to evaluate the embedded
queue operations on concrete inputs). -/
instance {e a : Type} [DecidableEq e] [DecidableEq a] : DecidableEq (Except e a) :=
  fun x y =>
    match x, y with
    | Except.ok v, Except.ok w =>
        if h : v = w then isTrue (by rw [h]) else isFalse (by intro hc; cases hc; exact h rfl)
    | Except.error v, Except.error w =>
        if h : v = w then isTrue (by rw [h]) else isFalse (by intro hc; cases hc; exact h rfl)
    | Except.ok _, Except.error _ => isFalse (by intro hc; cases hc)
    | Except.error _, Except.ok _ => isFalse (by intro hc; cases hc)

namespace CharUtil

/-- Lower-case a character list (models JS case-insensitive comparison on the
ASCII inputs the pipeline handles). -/
def lowerChars (s : List Char) : List Char := s.map Char.toLower

/-- `charsStartsWith pat s` : does `s` start with `pat`?  Models
`String.prototype.startsWith`. -/
def charsStartsWith (pat s : List Char) : Bool := s.take pat.length == pat

/-- Case-insensitive version of `charsStartsWith`. -/
def charsStartsWithCI (pat s : List Char) : Bool :=
  lowerChars (s.take pat.length) == lowerChars pat

/-- `charsEndsWith suffix s` : does `s` end with `suffix`?  Models
`String.prototype.endsWith`. -/
def charsEndsWith (suffix s : List Char) : Bool :=
  Nat.ble suffix.length s.length && (s.drop (s.length - suffix.length) == suffix)

/-- Substring containment, models `String.prototype.includes`. -/
def charsContains (pat : List Char) : List Char → Bool
  | [] => pat.isEmpty
  | c :: rest => charsStartsWith pat (c :: rest) || charsContains pat rest

/-- Split `s` at the first occurrence of `pat` (case-insensitively when `ci`):
returns the part strictly before the occurrence and the part strictly after
it.  `none` when `pat` does not occur.  Models the effect of a lazy
`[\s\S]*?` capture followed by the literal `pat`. -/
def splitFirstOcc (ci : Bool) (pat : List Char) : List Char → Option (List Char × List Char)
  | [] => if pat.isEmpty then some ([], []) else none
  | c :: rest =>
      if (if ci then charsStartsWithCI pat (c :: rest) else charsStartsWith pat (c :: rest)) then
        some ([], (c :: rest).drop pat.length)
      else
        match splitFirstOcc ci pat rest with
        | some (pre, post) => some (c :: pre, post)
        | none => none

/-- JS `\s` whitespace for the ASCII range handled by the pipeline. -/
def isJsSpace (c : Char) : Bool :=
  c == ' ' || c == '\t' || c == '\n' || c == '\r' || c == '\x0b' || c == '\x0c'

/-- The backquote character (used in markdown replacements). -/
def backquoteChar : Char := Char.ofNat 96

/-- JS `String.prototype.trim`: strip whitespace from both ends. -/
def jsTrim (s : List Char) : List Char :=
  ((s.dropWhile isJsSpace).reverse.dropWhile isJsSpace).reverse

end CharUtil

namespace Pipeline

open CharUtil

/-- `FileChange.status` (source `webhookHandler.ts`, interface `FileChange`). -/
inductive FileStatus where
  | added
  | modified
  | removed
  deriving DecidableEq

/-- Source interface `FileChange`.  `content` is `none` when the JS field is
`undefined` (never fetched, fetch failed, or fetch returned `null`). -/
structure FileChange where
  filename : String
  status : FileStatus
  content : Option String := none
  deriving DecidableEq

/-- Source constant `SUPPORTED_EXTENSIONS`. -/
def SUPPORTED_EXTENSIONS : List String :=
  [".md", ".txt", ".json", ".xml", ".csv", ".pdf", ".docx", ".ts", ".js", ".mdx"]

/-- Node `path.basename` for POSIX paths: the part after the last `/`. -/
def basenamePosix (s : String) : String :=
  String.mk ((s.data.reverse.takeWhile (fun c => c != '/')).reverse)

/-- Node `path.extname` for POSIX paths: from the last `.` of the basename,
empty when there is no dot or the only dot is the leading character. -/
def extnamePosix (s : String) : String :=
  let b := (basenamePosix s).data
  let afterDotRev := b.reverse.takeWhile (fun c => c != '.')
  if afterDotRev.length = b.length then ""
  else if afterDotRev.length + 1 = b.length then ""
  else String.mk ('.' :: afterDotRev.reverse)

/-- Source `OpenAIVectorStoreUpdater.shouldProcessFile`. -/
def shouldProcessFile (filename : String) : Bool :=
  let ext := lowerChars (extnamePosix filename).data
  if charsContains "node_modules".data filename.data
      || charsContains ".git".data filename.data
      || charsContains "dist".data filename.data
      || charsContains "build".data filename.data
      || charsStartsWith ".".data filename.data then
    false
  else
    SUPPORTED_EXTENSIONS.any (fun e => e.data == ext)

/-- Source constant `criticalExtensions` in `calculatePriority`. -/
def criticalExtensions : List String :=
  [".md", ".txt", ".json", ".xml", ".csv", ".pdf", ".docx"]

/-- Source `OpenAIVectorStoreUpdater.calculatePriority`:
`max(1, 10 - floor(count / 5))`, `+2` when some filename ends with a critical
extension, capped at `10`. -/
def calculatePriority (files : List FileChange) : Int :=
  let priority : Int := max 1 (10 - (files.length : Int) / 5)
  let hasCriticalFiles : Bool :=
    files.any (fun f => criticalExtensions.any (fun ext => charsEndsWith ext.data f.filename.data))
  let priority := if hasCriticalFiles then priority + 2 else priority
  min 10 priority

/-- One commit of the webhook payload as untyped JSON: the three file lists
are `Option` because the JS object may lack the fields (accessing a missing
field throws a `TypeError` inside the extractor's `try`). -/
structure CommitPayload where
  added : Option (List String)
  removed : Option (List String)
  modified : Option (List String)
  message : String
  deriving DecidableEq

/-- The `repository.owner` object as untyped JSON: `login` may be absent
(reading a missing field yields `undefined` without throwing). -/
structure OwnerPayload where
  login : Option String
  deriving DecidableEq

/-- The `repository` object as untyped JSON: `owner` may be absent — reading
`.login` off the resulting `undefined` then throws — while missing `name`
or `full_name` reads are plain `undefined`. -/
structure RepoPayload where
  owner : Option OwnerPayload
  name : Option String
  full_name : Option String
  deriving DecidableEq

/-- The parts of the source `WebhookPayload` interface used by the pipeline,
as untyped JSON: `repository` itself may be absent, in which case reading
`repository.owner` throws. -/
structure WebhookPayload where
  repository : Option RepoPayload
  commits : Option (List CommitPayload)
  ref : Option String
  after : Option String
  deriving DecidableEq

/-- JS field access on untyped JSON: `none` (undefined) throws. -/
def fieldAccess {α : Type} : Option α → Except String α
  | some v => Except.ok v
  | none => Except.error "TypeError: cannot read properties of undefined"

/-- Source regex test `/^Merge pull request/i.test(commit.message)`. -/
def isMergeCommitMessage (message : String) : Bool :=
  charsStartsWithCI "Merge pull request".data message.data

/-- The per-commit block of `getChangedFiles`: `commit.added/modified/removed`
mapped to `FileChange` entries and pushed in the order added, modified,
removed. -/
def commitFileChanges (c : CommitPayload) : Except String (List FileChange) := do
  let added ← fieldAccess c.added
  let modified ← fieldAccess c.modified
  let removed ← fieldAccess c.removed
  pure ((added.map fun f => { filename := f, status := FileStatus.added })
    ++ (modified.map fun f => { filename := f, status := FileStatus.modified })
    ++ (removed.map fun f => { filename := f, status := FileStatus.removed }))

/-- The commit loop of `getChangedFiles` accumulating `changedFiles`. -/
def collectCommitChanges : List CommitPayload → Except String (List FileChange)
  | [] => Except.ok []
  | c :: rest => do
      let here ← commitFileChanges c
      let there ← collectCommitChanges rest
      pure (here ++ there)

/-- JS truthiness of the `content` field in
`supportedFiles.filter((file) => file.status === "removed" || file.content)`:
`undefined` and the empty string are falsy. -/
def contentTruthy : Option String → Bool
  | none => false
  | some c => c != ""

/-- The body of `OpenAIVectorStoreUpdater.getChangedFiles` (the code inside
its `try`).  `fetchContent` is the oracle for `getFileContent` (GitHub
content fetch): `none` models both a failed fetch and a `null` body, which the
source turns into `content = undefined`.  The source fetches in concurrent
groups of 10, which has no effect on the resulting list. -/
def getChangedFilesCore (payload : WebhookPayload)
    (fetchContent : String → Option String) : Except String (List FileChange) := do
  let commits := (payload.commits.getD []).filter (fun c => !isMergeCommitMessage c.message)
  let changedFiles ← collectCommitChanges commits
  let supportedFiles := changedFiles.filter (fun f => shouldProcessFile f.filename)
  let withContent := supportedFiles.map (fun f =>
    if f.status = FileStatus.removed then f else { f with content := fetchContent f.filename })
  pure (withContent.filter (fun f => (f.status == FileStatus.removed) || contentTruthy f.content))

/-- The whole of `OpenAIVectorStoreUpdater.getChangedFiles`: the reads
`repository.owner.login` and `repository.name` happen BEFORE the `try`
opens, so a payload lacking `repository`, or whose repository lacks
`owner`, throws out of the method (an `Except.error`); only failures inside
the `try` (`getChangedFilesCore`, e.g. a commit-field access) are caught
and turned into `[]`. -/
def getChangedFiles (payload : WebhookPayload)
    (fetchContent : String → Option String) : Except String (List FileChange) := do
  let repository ← fieldAccess payload.repository
  let _owner ← fieldAccess repository.owner
  match getChangedFilesCore payload fetchContent with
  | Except.ok l => pure l
  | Except.error _ => pure []

end Pipeline

namespace Queue

open Pipeline

/-- Source `QueueJob.status`. -/
inductive JobStatus where
  | pending
  | processing
  | completed
  | failed
  | retrying
  deriving DecidableEq

/-- Source interface `QueueJob`.  The generated string id
`job_${Date.now()}_${random}` is modelled by a monotone admission counter;
the only property the queue relies on is freshness. -/
structure QueueJob where
  jobId : Nat
  repository : String
  files : List FileChange
  priority : Int
  attempts : Nat
  status : JobStatus
  deriving DecidableEq

/-- The `JobQueue` state relevant to admission: the active `queue` array, the
id generator, and the configured `maxSize`. -/
structure JobQueueState where
  queue : List QueueJob
  nextId : Nat
  maxSize : Nat
  deriving DecidableEq

/-- JS `Array.prototype.splice(i, 0, a)`: insert `a` at index `i`. -/
def spliceInsert {α : Type} (l : List α) (i : Nat) (a : α) : List α :=
  l.take i ++ a :: l.drop i

/-- The insertion step of `JobQueue.addJob`:
`findIndex((j) => j.priority < job.priority)`, then `push` when `-1`
else `splice(insertIndex, 0, queueJob)`. -/
def insertByPriority (queue : List QueueJob) (j : QueueJob) : List QueueJob :=
  match queue.findIdx? (fun q => q.priority < j.priority) with
  | none => queue ++ [j]
  | some i => spliceInsert queue i j

/-- Source `JobQueue.addJob`: reject with a capacity error when
`queue.length >= maxSize`, otherwise create the job (`attempts = 0`,
`status = pending`), insert it by priority and return its id. -/
def addJob (st : JobQueueState) (repository : String) (files : List FileChange)
    (priority : Int) : Except String (Nat × JobQueueState) :=
  if st.queue.length ≥ st.maxSize then
    Except.error "Queue is at maximum capacity"
  else
    let queueJob : QueueJob :=
      { jobId := st.nextId
        repository := repository
        files := files
        priority := priority
        attempts := 0
        status := JobStatus.pending }
    Except.ok (queueJob.jobId,
      { st with queue := insertByPriority st.queue queueJob, nextId := st.nextId + 1 })

/-- Fold a sequence of admissions (priorities) over the queue state; a
rejected admission leaves the state unchanged (the thrown error creates no
job and mutates nothing). -/
def admitSeq (st : JobQueueState) : List Int → JobQueueState
  | [] => st
  | p :: ps =>
      match addJob st "repo" [] p with
      | Except.ok (_, st') => admitSeq st' ps
      | Except.error _ => admitSeq st ps

/-- State of one job as driven by `JobQueue.processJob` and the scheduler:
`error` is the `job.error` field, `completedEntry` the record placed in the
`completed` map. -/
structure JobRunState where
  status : JobStatus
  attempts : Nat
  error : Option String
  completedEntry : Option (JobStatus × Option String)
  deriving DecidableEq

/-- A freshly admitted job: `pending` with `attempts = 0`. -/
def initialJobState : JobRunState :=
  { status := JobStatus.pending, attempts := 0, error := none, completedEntry := none }

/-- Events of one job's lifecycle.  `dispatch` is the scheduler invoking
`processJob`, which is the one and only call site of the batch processor
(`processor.processFileBatch`); `finishOk`/`finishErr` are the batch
processor's promise resolving/rejecting; `backoffElapsed` is the retry
timer firing. -/
inductive JobEvent where
  | dispatch
  | finishOk
  | finishErr (msg : String)
  | backoffElapsed
  deriving DecidableEq

def isDispatch : JobEvent → Bool
  | JobEvent.dispatch => true
  | _ => false

/-- The retry backoff delay scheduled by `processJob`:
`Math.pow(2, job.attempts) * 1000` milliseconds. -/
def retryDelayMs (attempts : Nat) : Nat := 2 ^ attempts * 1000

/-- One step of the job lifecycle, as implemented by `processQueue` /
`processJob`.  Returns the new state and, for a retried failure, the
scheduled backoff delay in milliseconds; `none` when the event is not
enabled in the given state (the scheduler only dispatches `pending` jobs,
and terminal states accept no event). -/
def jobStep (s : JobRunState) : JobEvent → Option (JobRunState × Option Nat)
  | JobEvent.dispatch =>
      if s.status = JobStatus.pending then
        some ({ s with status := JobStatus.processing, attempts := s.attempts + 1 }, none)
      else none
  | JobEvent.finishOk =>
      if s.status = JobStatus.processing then
        some ({ s with
                status := JobStatus.completed
                completedEntry := some (JobStatus.completed, none) }, none)
      else none
  | JobEvent.finishErr msg =>
      if s.status = JobStatus.processing then
        if s.attempts < 3 then
          some ({ s with status := JobStatus.retrying }, some (retryDelayMs s.attempts))
        else
          some ({ s with
                  status := JobStatus.failed
                  error := some msg
                  completedEntry := some (JobStatus.failed, some msg) }, none)
      else none
  | JobEvent.backoffElapsed =>
      if s.status = JobStatus.retrying then
        some ({ s with status := JobStatus.pending }, none)
      else none

/-- Run a sequence of lifecycle events; `none` when some event was not
enabled. -/
def runTrace : JobRunState → List JobEvent → Option JobRunState
  | s, [] => some s
  | s, e :: es =>
      match jobStep s e with
      | some (s', _) => runTrace s' es
      | none => none

/-- Number of `dispatch` events, i.e. batch-processor invocations, in a
trace. -/
def countDispatch (t : List JobEvent) : Nat := t.countP isDispatch

end Queue

namespace Batch

open Pipeline CharUtil

/-- The per-file result entries of `BatchJob.results`. -/
structure FileResult where
  filename : String
  status : String
  error : Option String
  deriving DecidableEq

/-- The filename encoding used by both `batchRemoveFiles` and
`batchAddOrUpdateFiles`: every path separator (`/` or `\`) replaced by `_`,
then a trailing `.mdx` rewritten to `.md`. -/
def encodeFilename (filename : String) : String :=
  let replaced := filename.data.map (fun c => if c == '/' || c == '\\' then '_' else c)
  if charsEndsWith ".mdx".data replaced then
    String.mk (replaced.take (replaced.length - 4) ++ ".md".data)
  else
    String.mk replaced

/-- Lookup in the `vectorStoreFileMap` (`Map<string, string>` from stored
filename to file id) built by `batchRemoveFiles`; modelled as an association
list with distinct keys. -/
def lookupFileId (vectorStoreFileMap : List (String × String)) (name : String) : Option String :=
  (vectorStoreFileMap.find? (fun p => p.1 == name)).map Prod.snd

/-- Outcome of handling one file inside `batchRemoveFiles`: the entry pushed
onto `results` and the ids whose vector-store entry and underlying file were
deleted. -/
structure RemoveOutcome where
  result : FileResult
  deletedFileIds : List String
  deriving DecidableEq

/-- The per-file body of `batchRemoveFiles`: encode the filename, look it up
in the store map; when found, delete the entry and the file (the
`deleteFails` oracle models the remote delete calls throwing) and record
success; when absent, record success without issuing any delete call. -/
def removeOneFile (vectorStoreFileMap : List (String × String))
    (deleteFails : String → Bool) (file : FileChange) : RemoveOutcome :=
  let encodedFilename := encodeFilename file.filename
  match lookupFileId vectorStoreFileMap encodedFilename with
  | some fileId =>
      if deleteFails fileId then
        { result := { filename := file.filename, status := "failed", error := some "Unknown error" }
          deletedFileIds := [] }
      else
        { result := { filename := file.filename, status := "success", error := none }
          deletedFileIds := [fileId] }
  | none =>
      { result := { filename := file.filename, status := "success", error := none }
        deletedFileIds := [] }

/-- Source `BatchProcessor.removeExistingFile`: scan the store's files (id,
stored filename) in order and delete the first whose filename equals the
encoded filename; returns the deleted id, `none` when nothing matched (and
nothing is deleted). -/
def removeExistingFile (storeFiles : List (String × String)) (encodedFilename : String) :
    Option String :=
  (storeFiles.find? (fun p => p.2 == encodedFilename)).map Prod.fst

/-- Source `BatchProcessor.createTemporaryFile`: the temp file lives at
`path.join(config.tempDir, path.basename(filename))`. -/
def tempFilePath (tempDir filename : String) : String :=
  tempDir ++ "/" ++ basenamePosix filename

/-- Observable scheduling events of the upload phase of
`batchAddOrUpdateFiles`, for a batch whose files are indexed in list
order: `initiate i` is the `i`-th upload's async body running synchronously
to its first `await` and issuing its remote call; `complete i` is the
chunked loop awaiting that upload's promise; `pauseMs` is the
`setTimeout`-backed delay between chunks. -/
inductive UploadEvent where
  | initiate (i : Nat)
  | complete (i : Nat)
  | pauseMs (ms : Nat)
  deriving DecidableEq

/-- The await/pause loop of `batchAddOrUpdateFiles`
(`for (let i = 0; i < n; i += 3) { await Promise.all(slice(i, i + 3));
if (i + 3 < n) await 2000ms }`), over the list of still-unawaited upload
indices.  Awaiting a chunk observes its members' completions (listed here
in index order; within one chunk no relative completion order is
guaranteed by the source).  Fuel-based so the definition evaluates by
kernel reduction; `awaitPhase` supplies sufficient fuel. -/
def awaitPhaseAux : Nat → List Nat → List UploadEvent
  | _, [] => []
  | 0, _ :: _ => []
  | fuel + 1, l@(_ :: _) =>
      ((l.take 3).map UploadEvent.complete)
        ++ (if 3 < l.length then UploadEvent.pauseMs 2000 :: awaitPhaseAux fuel (l.drop 3)
            else awaitPhaseAux fuel (l.drop 3))

def awaitPhase (indices : List Nat) : List UploadEvent :=
  awaitPhaseAux indices.length indices

/-- The actual upload scheduling of the source:
`tempFiles.map(async ({...}) => {...})` creates — and thereby starts —
every upload promise at map time (each async body runs synchronously to
its first `await`, issuing its remote call), and only then does the
chunked loop await slices of 3 with 2-second pauses.  So every initiation
precedes every completion and every pause: the loop groups the awaits,
not the uploads. -/
def uploadScheduleSource (n : Nat) : List UploadEvent :=
  ((List.range n).map UploadEvent.initiate) ++ awaitPhase (List.range n)

/-- Modelled from the spec: the claimed schedule in which uploads are
"processed in fixed-size concurrent groups of 3 where group N completes
(including its post-group delay) before group N+1 starts" — each group of
3 is initiated, completed, and (except the last) followed by the 2-second
pause before the next group begins. -/
def uploadScheduleClaimedAux : Nat → List Nat → List UploadEvent
  | _, [] => []
  | 0, _ :: _ => []
  | fuel + 1, l@(_ :: _) =>
      ((l.take 3).map UploadEvent.initiate) ++ ((l.take 3).map UploadEvent.complete)
        ++ (if 3 < l.length then
              UploadEvent.pauseMs 2000 :: uploadScheduleClaimedAux fuel (l.drop 3)
            else uploadScheduleClaimedAux fuel (l.drop 3))

/-- Modelled from the spec: the grouped schedule for an `n`-file batch. -/
def uploadScheduleClaimed (n : Nat) : List UploadEvent :=
  uploadScheduleClaimedAux n (List.range n)

end Batch

namespace Orchestrator

open Pipeline CharUtil Queue

/-- The JS values flowing through the handler's signature check.  A
`Promise` is an object and hence truthy regardless of the boolean it will
resolve to. -/
inductive JsValue where
  | bool (b : Bool)
  | promise (resolvesTo : Bool)
  deriving DecidableEq

/-- JS truthiness: every object (a `Promise` included) is truthy. -/
def jsTruthy : JsValue → Bool
  | JsValue.bool b => b
  | JsValue.promise _ => true

/-- The value of the expression `this.verifySignature(secret, header,
payload)` at the call site in `handleWebhook`: `verifySignature` is `async`,
so the call returns a `Promise` that will resolve to the actual
HMAC-SHA-256 comparison result `sigValid`; the source does not `await` it. -/
def verifySignatureCall (sigValid : Bool) : JsValue := JsValue.promise sigValid

/-- The branch filter `if (webhookPayload.ref && !webhookPayload.ref.endsWith("/main"))`. -/
def refSkipsProcessing : Option String → Bool
  | some r => (r != "") && !(charsEndsWith "/main".data r.data)
  | none => false

/-- What `handleWebhook` does with one event after the immediate `202`
acknowledgment.  `errorCaught` is the method's outer `catch` (a thrown
payload access, extraction rejection, or admission error is logged and
swallowed). -/
inductive HandlerOutcome where
  | rejectedInvalidSignature
  | skippedNonMainBranch
  | skippedNoFiles
  | errorCaught
  | admitted (repository : String) (files : List FileChange) (priority : Int)
  deriving DecidableEq

/-- Source `OpenAIVectorStoreUpdater.handleWebhook` after the `202` response:
the signature guard tests `!this.verifySignature(...)` on the un-awaited
promise, then the branch filter, then the `repository.full_name` log read,
change-set extraction, priority computation and admission, all inside the
method's `try` (any throw is caught and only logged).  `sigValid` is the
mathematical result of the HMAC-SHA-256 check. -/
def handleWebhook (sigValid : Bool) (payload : WebhookPayload)
    (fetchContent : String → Option String) : HandlerOutcome :=
  if !(jsTruthy (verifySignatureCall sigValid)) then
    HandlerOutcome.rejectedInvalidSignature
  else if refSkipsProcessing payload.ref then
    HandlerOutcome.skippedNonMainBranch
  else
    match (do
        let repository ← fieldAccess payload.repository
        let changedFiles ← getChangedFiles payload fetchContent
        pure (repository, changedFiles) : Except String (RepoPayload × List FileChange)) with
    | Except.error _ => HandlerOutcome.errorCaught
    | Except.ok (repository, changedFiles) =>
        if changedFiles.length = 0 then
          HandlerOutcome.skippedNoFiles
        else
          HandlerOutcome.admitted (repository.full_name.getD "") changedFiles
            (calculatePriority changedFiles)

/-- The intended handler — the same control flow with the signature check
actually awaited, as both the surrounding code and the spec describe. -/
def handleWebhookIntended (sigValid : Bool) (payload : WebhookPayload)
    (fetchContent : String → Option String) : HandlerOutcome :=
  if !sigValid then
    HandlerOutcome.rejectedInvalidSignature
  else if refSkipsProcessing payload.ref then
    HandlerOutcome.skippedNonMainBranch
  else
    match (do
        let repository ← fieldAccess payload.repository
        let changedFiles ← getChangedFiles payload fetchContent
        pure (repository, changedFiles) : Except String (RepoPayload × List FileChange)) with
    | Except.error _ => HandlerOutcome.errorCaught
    | Except.ok (repository, changedFiles) =>
        if changedFiles.length = 0 then
          HandlerOutcome.skippedNoFiles
        else
          HandlerOutcome.admitted (repository.full_name.getD "") changedFiles
            (calculatePriority changedFiles)

end Orchestrator

namespace Mdx

open CharUtil

/-- One global-replace pass (`String.prototype.replace` with a `g` flag):
`step` decides whether a match starts at the head of the input and, if so,
yields the replacement text and the input remaining after the match.
Replacement text is not rescanned; scanning resumes after the match.  Every
matcher used below consumes at least one character, so fuel
`input.length + 1` always suffices. -/
def globalReplace (step : List Char → Option (List Char × List Char)) :
    Nat → List Char → List Char
  | 0, s => s
  | _ + 1, [] => []
  | fuel + 1, c :: rest =>
      match step (c :: rest) with
      | some (repl, after) => repl ++ globalReplace step fuel after
      | none => c :: globalReplace step fuel rest

/-- Run a global-replace pass over the whole input. -/
def runPass (step : List Char → Option (List Char × List Char)) (s : List Char) : List Char :=
  globalReplace step (s.length + 1) s

/-- Matcher for `/<(N1|N2|…)([^>]*?)>([\s\S]*?)<\/\1>/gi` tried against one
alternation name: the lazy attribute group cannot cross `>`, so the
attributes are exactly the characters up to the first `>`, and the lazy body
ends at the first occurrence of the (case-insensitive) closing tag.  When a
name matches the opening but its closing tag never occurs, backtracking
falls through to the next alternation name. -/
def stepTagPairGo (mk : List Char → List Char → List Char → List Char) (rest : List Char) :
    List (List Char) → Option (List Char × List Char)
  | [] => none
  | name :: more =>
      if charsStartsWithCI name rest then
        let g1 := rest.take name.length
        let afterName := rest.drop name.length
        let attrs := afterName.takeWhile (fun c => c != '>')
        match afterName.drop attrs.length with
        | '>' :: body =>
            (match splitFirstOcc true (('<' :: '/' :: name) ++ ['>']) body with
             | some (content, after) => some (mk g1 attrs content, after)
             | none => stepTagPairGo mk rest more)
        | _ => stepTagPairGo mk rest more
      else stepTagPairGo mk rest more

/-- Matcher for the source's paired-tag conversions
(`Callout|Note|Info`, `Warning|Alert`, `Tip`, `pre`, `code`, `Tabs`):
the replacement `mk` receives the matched name, the attribute text and the
body. -/
def stepTagPair (names : List (List Char))
    (mk : List Char → List Char → List Char → List Char) :
    List Char → Option (List Char × List Char)
  | '<' :: rest => stepTagPairGo mk rest names
  | _ => none

/-- Matcher for the source's attribute-carrying conversions
(`<CodeBlock language='…'>`, `<Tab title='…'>`, `<Details summary='…'>`):
`/<Name\s+attr=['"]([^'"]*?)['"]([^>]*?)>([\s\S]*?)<\/Name>/gi`.  `mk`
receives the quoted attribute value, the remaining attribute text and the
body. -/
def stepAttrTag (nameL attrLit closeLit : List Char)
    (mk : List Char → List Char → List Char → List Char) :
    List Char → Option (List Char × List Char)
  | '<' :: rest =>
      if charsStartsWithCI nameL rest then
        let afterName := rest.drop nameL.length
        let ws := afterName.takeWhile isJsSpace
        if ws.isEmpty then none
        else
          let afterWs := afterName.drop ws.length
          if charsStartsWithCI attrLit afterWs then
            match afterWs.drop attrLit.length with
            | q :: afterQ =>
                if q == '\'' || q == '"' then
                  let g1 := afterQ.takeWhile (fun c => c != '\'' && c != '"')
                  match afterQ.drop g1.length with
                  | _ :: afterQ2 =>
                      let attrs := afterQ2.takeWhile (fun c => c != '>')
                      (match afterQ2.drop attrs.length with
                       | '>' :: body =>
                           (match splitFirstOcc true closeLit body with
                            | some (content, after) => some (mk g1 attrs content, after)
                            | none => none)
                       | _ => none)
                  | [] => none
                else none
            | [] => none
          else none
      else none
  | _ => none

/-- Matcher for `/<(br|BR)\s*\/?>/gi` and `/<(hr|HR)\s*\/?>/gi`: the tag
name, optional whitespace, an optional slash, then `>`. -/
def stepVoidTag (nameL repl : List Char) : List Char → Option (List Char × List Char)
  | '<' :: rest =>
      if charsStartsWithCI nameL rest then
        let afterWs := (rest.drop nameL.length).dropWhile isJsSpace
        match afterWs with
        | '/' :: '>' :: after => some (repl, after)
        | '>' :: after => some (repl, after)
        | _ => none
      else none
  | _ => none

def isAsciiUpper (c : Char) : Bool := 'A' ≤ c && c ≤ 'Z'

def isAsciiAlnum (c : Char) : Bool :=
  ('a' ≤ c && c ≤ 'z') || isAsciiUpper c || ('0' ≤ c && c ≤ '9')

/-- Backtracking search for the generic unwrap pattern
`/<([A-Z][a-zA-Z0-9]*?)([^>]*?)>([\s\S]*?)<\/\1>/g` (case-sensitive): the
lazy name group tries ever longer alphanumeric names (shortest first, each
time looking for the first occurrence of that name's closing tag), exactly
as the regex engine backtracks. -/
def genericUnwrapGo (first : Char) (rest : List Char) :
    Nat → Nat → Option (List Char × List Char)
  | 0, _ => none
  | fuel + 1, k =>
      if k ≤ rest.length && (rest.take k).all isAsciiAlnum then
        let name := first :: rest.take k
        let afterName := rest.drop k
        let attrs := afterName.takeWhile (fun c => c != '>')
        match afterName.drop attrs.length with
        | '>' :: body =>
            (match splitFirstOcc false (('<' :: '/' :: name) ++ ['>']) body with
             | some (content, after) => some (content, after)
             | none => genericUnwrapGo first rest fuel (k + 1))
        | _ => none
      else none

/-- The generic component-unwrapping conversion (keep the body, drop the
tags). -/
def stepGenericUnwrap : List Char → Option (List Char × List Char)
  | '<' :: c :: rest =>
      if isAsciiUpper c then genericUnwrapGo c rest (rest.length + 2) 0
      else none
  | _ => none

/-- The removal of remaining self-closing capitalized components
`/<[A-Z][a-zA-Z0-9]*?[^>]*?\s*\/>/g`: the first `>` after the tag start must
be immediately preceded by `/`. -/
def stepSelfClosingUpper : List Char → Option (List Char × List Char)
  | '<' :: c :: rest =>
      if isAsciiUpper c then
        let mid := rest.takeWhile (fun x => x != '>')
        match rest.drop mid.length with
        | '>' :: after =>
            (match mid.reverse with
             | '/' :: _ => some ([], after)
             | _ => none)
        | _ => none
      else none
  | _ => none

def openBraceChar : Char := Char.ofNat 123

def closeBraceChar : Char := Char.ofNat 125

/-- Body scan for `/\{(['"`])(.*?)\1\}/g`: the lazy dot group stays on one
line, and the closing must be the same quote followed by the closing brace;
a quote not followed by the closing brace is absorbed by the body. -/
def braceQuoteScan (q : Char) : List Char → Option (List Char × List Char)
  | [] => none
  | c :: rest =>
      if c == '\n' then none
      else if c == q then
        match rest with
        | d :: after =>
            if d == closeBraceChar then some ([], after)
            else (braceQuoteScan q rest).map (fun p => (c :: p.1, p.2))
        | [] => none
      else (braceQuoteScan q rest).map (fun p => (c :: p.1, p.2))

/-- First JSX-expression cleanup: quoted literal braces collapse to the
literal text. -/
def stepBraceQuote : List Char → Option (List Char × List Char)
  | c :: q :: rest =>
      if c == openBraceChar && (q == '\'' || q == '"' || q == backquoteChar) then
        braceQuoteScan q rest
      else none
  | _ => none

/-- Second JSX-expression cleanup `/\{([^}]+)\}/g`: any brace group becomes
inline code. -/
def stepBraceAny : List Char → Option (List Char × List Char)
  | c :: rest =>
      if c == openBraceChar then
        let inner := rest.takeWhile (fun x => x != closeBraceChar)
        if inner.isEmpty then none
        else
          match rest.drop inner.length with
          | d :: after =>
              if d == closeBraceChar then
                some (backquoteChar :: (inner ++ [backquoteChar]), after)
              else none
          | [] => none
      else none
  | [] => none

def wsRunLen (s : List Char) : Nat := (s.takeWhile isJsSpace).length

/-- Greedy search for the second `\s*\n` of the whitespace-collapse pattern:
tries the longest whitespace run first, returns the number of characters
consumed (run plus newline). -/
def collapseTry2 (rest2 : List Char) : Nat → Option Nat
  | 0 =>
      (match rest2 with
       | c :: _ => if c == '\n' then some 1 else none
       | [] => none)
  | l2 + 1 =>
      (match rest2.drop (l2 + 1) with
       | c :: _ => if c == '\n' then some (l2 + 2) else collapseTry2 rest2 l2
       | [] => collapseTry2 rest2 l2)

/-- Greedy search for the first `\s*\n` of the whitespace-collapse pattern
(then delegates to `collapseTry2`), with regex backtracking order. -/
def collapseTry1 (rest : List Char) : Nat → Option (List Char × List Char)
  | 0 =>
      (match rest with
       | c :: rest2 =>
           if c == '\n' then
             match collapseTry2 rest2 (wsRunLen rest2) with
             | some consumed2 => some ("\n\n".data, rest2.drop consumed2)
             | none => none
           else none
       | [] => none)
  | l1 + 1 =>
      (match rest.drop (l1 + 1) with
       | c :: rest2 =>
           if c == '\n' then
             match collapseTry2 rest2 (wsRunLen rest2) with
             | some consumed2 => some ("\n\n".data, rest2.drop consumed2)
             | none => collapseTry1 rest l1
           else collapseTry1 rest l1
       | [] => collapseTry1 rest l1)

/-- Matcher for the whitespace collapse `/\n\s*\n\s*\n/g → "\n\n"`. -/
def collapseStep : List Char → Option (List Char × List Char)
  | c :: rest => if c == '\n' then collapseTry1 rest (wsRunLen rest) else none
  | [] => none

/-- Frontmatter handling of `preprocessMdx`: `^---\n([\s\S]*?)\n---\n`
matched at the start is preserved verbatim and removed from the body. -/
def splitFrontmatter (s : List Char) : List Char × List Char :=
  if charsStartsWith "---\n".data s then
    match splitFirstOcc false "\n---\n".data (s.drop 4) with
    | some (middle, after) => ("---\n".data ++ middle ++ "\n---\n".data, after)
    | none => ([], s)
  else ([], s)

/-- Does a line match `/^import\s+.*$/` (an import declaration)? -/
def isImportLine : List Char → Bool
  | 'i' :: 'm' :: 'p' :: 'o' :: 'r' :: 't' :: c :: _ => isJsSpace c
  | _ => false

/-- Does a line match `/^export\s+.*$/` (an export declaration)? -/
def isExportLine : List Char → Bool
  | 'e' :: 'x' :: 'p' :: 'o' :: 'r' :: 't' :: c :: _ => isJsSpace c
  | _ => false

/-- Multiline global replace of whole-line matches with the empty string:
the `m`-flagged `^…$` patterns act line by line, leaving the line's
terminator in place. -/
def removeMatchingLines (p : List Char → Bool) (s : List Char) : List Char :=
  List.intercalate ['\n'] ((List.splitOn '\n' s).map (fun l => if p l then [] else l))

/-- The ordered conversion list of `preprocessMdx` (callouts, warnings,
tips, code blocks, pre, code, tabs, details, line/rule breaks, generic
unwrap, self-closing removal), applied via global replace in source
order. -/
def applyConversions (s : List Char) : List Char :=
  let s1 := runPass (stepTagPair ["Callout".data, "Note".data, "Info".data]
    (fun _ _ g3 => "> **Note:** ".data ++ g3)) s
  let s2 := runPass (stepTagPair ["Warning".data, "Alert".data]
    (fun _ _ g3 => "> **⚠️ Warning:** ".data ++ g3)) s1
  let s3 := runPass (stepTagPair ["Tip".data]
    (fun _ _ g3 => "> **💡 Tip:** ".data ++ g3)) s2
  let s4 := runPass (stepAttrTag "CodeBlock".data "language=".data "</CodeBlock>".data
    (fun g1 _ g3 => "```".data ++ g1 ++ '\n' :: (g3 ++ "\n```".data))) s3
  let s5 := runPass (stepTagPair ["pre".data]
    (fun _ _ g2 => "```\n".data ++ g2 ++ "\n```".data)) s4
  let s6 := runPass (stepTagPair ["code".data]
    (fun _ _ g2 => backquoteChar :: (g2 ++ [backquoteChar]))) s5
  let s7 := runPass (stepAttrTag "Tab".data "title=".data "</Tab>".data
    (fun g1 _ g3 => "#### ".data ++ g1 ++ "\n\n".data ++ g3 ++ "\n".data)) s6
  let s8 := runPass (stepTagPair ["Tabs".data] (fun _ _ g2 => g2)) s7
  let s9 := runPass (stepAttrTag "Details".data "summary=".data "</Details>".data
    (fun g1 _ g3 =>
      "<details>\n<summary>".data ++ g1 ++ "</summary>\n\n".data ++ g3
        ++ "\n\n</details>".data)) s8
  let s10 := runPass (stepVoidTag "br".data "\n\n".data) s9
  let s11 := runPass (stepVoidTag "hr".data "\n---\n".data) s10
  let s12 := runPass stepGenericUnwrap s11
  runPass stepSelfClosingUpper s12

/-- Source `preprocessMdx` in `convertMdxContentToMd.ts`: extract and
preserve frontmatter, strip import/export lines, apply the conversion list,
clean up JSX expression braces, collapse triple newlines, trim, and
re-prepend the frontmatter.  The exported `convertMdxToMd` then renders this
text through the external `markdown-it` library (out of scope here): the
plain-markup blockquote/callout text exists at this pre-render stage. -/
def preprocessMdx (content : String) : String :=
  let fm := splitFrontmatter content.data
  let body := removeMatchingLines isImportLine fm.2
  let body := removeMatchingLines isExportLine body
  let body := applyConversions body
  let body := runPass stepBraceQuote body
  let body := runPass stepBraceAny body
  let body := runPass collapseStep body
  let body := jsTrim body
  String.mk (fm.1 ++ body)

end Mdx

namespace Examples

open Pipeline Queue Batch Orchestrator

/-- Five added `.md` files (the spec's priority scenario). -/
def fiveMdFiles : List FileChange :=
  [{ filename := "a.md", status := FileStatus.added },
   { filename := "b.md", status := FileStatus.added },
   { filename := "c.md", status := FileStatus.added },
   { filename := "d.md", status := FileStatus.added },
   { filename := "e.md", status := FileStatus.added }]

/-- A push payload with one added supported file and a complete repository
object. -/
def demoPayload : WebhookPayload :=
  { repository := some { owner := some { login := some "o" }
                         name := some "r"
                         full_name := some "o/r" }
    commits := some [{ added := some ["README.md"]
                       removed := some []
                       modified := some []
                       message := "add docs" }]
    ref := some "refs/heads/main"
    after := some "abc123" }

/-- A content-fetch oracle that always succeeds. -/
def demoFetch : String → Option String := fun _ => some "hello"

/-- A payload whose commit object lacks the `added` field: accessing it
throws inside the extractor's `try` (so the error is caught there). -/
def badPayload : WebhookPayload :=
  { repository := some { owner := some { login := some "o" }
                         name := some "r"
                         full_name := some "o/r" }
    commits := some [{ added := none
                       removed := some []
                       modified := some []
                       message := "m" }]
    ref := some "refs/heads/main"
    after := none }

/-- A payload whose repository object lacks `owner`: the read
`repository.owner.login` happens before the extractor's `try`, so the
`TypeError` propagates out of `getChangedFiles`. -/
def noOwnerPayload : WebhookPayload :=
  { repository := some { owner := none
                         name := some "r"
                         full_name := some "o/r" }
    commits := some [{ added := some ["README.md"]
                       removed := some []
                       modified := some []
                       message := "m" }]
    ref := some "refs/heads/main"
    after := none }

/-- A payload with two added files, used with a fetch oracle that fails for
one of them. -/
def dropPayload : WebhookPayload :=
  { repository := some { owner := some { login := some "o" }
                         name := some "r"
                         full_name := some "o/r" }
    commits := some [{ added := some ["a.md", "b.md"]
                       removed := some []
                       modified := some []
                       message := "m" }]
    ref := some "refs/heads/main"
    after := none }

/-- Fetch oracle failing for `a.md` only. -/
def dropFetch : String → Option String :=
  fun f => if f == "a.md" then none else some "x"

/-- A lifecycle trace: dispatch, failure on the first attempt, backoff,
dispatch again, success. -/
def demoTrace : List JobEvent :=
  [JobEvent.dispatch, JobEvent.finishErr "boom", JobEvent.backoffElapsed,
   JobEvent.dispatch, JobEvent.finishOk]

/-- The state reached by `demoTrace`. -/
def demoTraceState : JobRunState :=
  { status := JobStatus.completed
    attempts := 2
    error := none
    completedEntry := some (JobStatus.completed, none) }

end Examples

namespace Queue

/-- The ordering invariant claimed for the active queue: non-increasing
priority, and at equal priority the earlier-admitted job (smaller admission
counter) first. -/
def queuePriorityOrder (a b : QueueJob) : Prop :=
  b.priority ≤ a.priority ∧ (a.priority = b.priority → a.jobId < b.jobId)

/-- The queue as constructed: empty, id counter at zero. -/
def initialQueueState (maxSize : Nat) : JobQueueState :=
  { queue := [], nextId := 0, maxSize := maxSize }

/-- The admission-freshness invariant: ordered queue and every queued job's
id below the generator. -/
def QueueInv (st : JobQueueState) : Prop :=
  st.queue.Pairwise queuePriorityOrder ∧ ∀ a ∈ st.queue, a.jobId < st.nextId

end Queue

section Theorems

open Pipeline Queue Batch Orchestrator CharUtil Examples

/-- C5: for every list of file changes the computed job priority equals
`min(10, max(1, 10 - floor(count/5)) + (2 if some filename ends with a
critical extension else 0))`; in particular five added `.md` files get
priority `10`. -/
theorem calculatePriority_spec :
    (∀ files : List FileChange,
        calculatePriority files =
          min 10 ((max 1 (10 - (files.length : Int) / 5)) +
            (if files.any (fun f => criticalExtensions.any
                (fun ext => charsEndsWith ext.data f.filename.data)) then 2 else 0))) ∧
    calculatePriority fiveMdFiles = 10 := by
  constructor
  · intro files
    unfold calculatePriority
    cases h : files.any (fun f => criticalExtensions.any
        (fun ext => charsEndsWith ext.data f.filename.data))
    · simp
    · simp
  · decide

/-- C10: the filename sanitization is not injective — `a/b.md` and `a_b.md`
collide; a removal targeting `a/b.md` deletes the index entry stored for
`a_b.md`; the modified-file lookup-and-delete does the same; and both
filenames share one temporary-file path. -/
theorem encodeFilename_not_injective :
    ("a/b.md" ≠ "a_b.md") ∧
    encodeFilename "a/b.md" = encodeFilename "a_b.md" ∧
    (removeOneFile [("a_b.md", "file-123")] (fun _ => false)
        { filename := "a/b.md", status := FileStatus.removed }).deletedFileIds = ["file-123"] ∧
    removeExistingFile [("file-123", "a_b.md")] (encodeFilename "a/b.md") = some "file-123" ∧
    (∀ tempDir : String,
        tempFilePath tempDir (encodeFilename "a/b.md") =
          tempFilePath tempDir (encodeFilename "a_b.md")) := by
  refine ⟨by decide, by decide, by decide, by decide, fun tempDir => ?_⟩
  have h : encodeFilename "a/b.md" = encodeFilename "a_b.md" := by decide
  rw [h]

/-- C6: a file whose encoded filename has no entry in the store map yields a
`success` result and no delete call is issued for it. -/
theorem removeOneFile_absent_success (vectorStoreFileMap : List (String × String))
    (deleteFails : String → Bool) (file : FileChange)
    (h : lookupFileId vectorStoreFileMap (encodeFilename file.filename) = none) :
    removeOneFile vectorStoreFileMap deleteFails file =
      { result := { filename := file.filename, status := "success", error := none }
        deletedFileIds := [] } := by
  simp only [removeOneFile, h]

/-- Witness for C6: a removed `docs/gone.mdx` (encoded `docs_gone.md`) with
no matching store entry. -/
theorem removeOneFile_absent_success_witness :
    removeOneFile [("other.md", "f1")] (fun _ => false)
        { filename := "docs/gone.mdx", status := FileStatus.removed } =
      { result := { filename := "docs/gone.mdx", status := "success", error := none }
        deletedFileIds := [] } :=
  removeOneFile_absent_success [("other.md", "f1")] (fun _ => false)
    { filename := "docs/gone.mdx", status := FileStatus.removed } (by decide)

/-- C9 counterexample: a document that contains the fragment
`<Warning>Data loss risk</Warning>` on an import line normalizes to the
empty string — the claimed blockquote text does not occur in the output, so
the universally quantified claim is false. -/
theorem preprocessMdx_universal_counterexample :
    charsContains "<Warning>Data loss risk</Warning>".data
        "import a <Warning>Data loss risk</Warning>".data = true ∧
    Mdx.preprocessMdx "import a <Warning>Data loss risk</Warning>" = "" ∧
    charsContains "> **⚠️ Warning:**".data
        (Mdx.preprocessMdx "import a <Warning>Data loss risk</Warning>").data = false := by
  exact ⟨by decide, by decide, by decide⟩

/-- C9 (amended): the scenario document consisting of the fragment itself
normalizes (at the pre-render preprocessing stage) to exactly the blockquote
`> **⚠️ Warning:** Data loss risk`. -/
theorem preprocessMdx_warning_scenario :
    Mdx.preprocessMdx "<Warning>Data loss risk</Warning>" =
      "> **⚠️ Warning:** Data loss risk" ∧
    charsStartsWith "> ".data
      (Mdx.preprocessMdx "<Warning>Data loss risk</Warning>").data = true := by
  exact ⟨by decide, by decide⟩

end Theorems

section Theorems2

open Pipeline Queue Batch Orchestrator CharUtil Examples

/-- C4 (code bug): the handler tests the un-awaited promise returned by
`verifySignature`, which is truthy regardless of the verification result, so
the rejection branch is unreachable: no input is ever rejected for a bad
signature, and a concrete invalid-signature request still reaches change-set
extraction and job admission.  The awaited variant would reject. -/
theorem handleWebhook_signature_not_enforced :
    (∀ (sigValid : Bool) (payload : WebhookPayload) (fetchContent : String → Option String),
        handleWebhook sigValid payload fetchContent ≠
          HandlerOutcome.rejectedInvalidSignature) ∧
    handleWebhook false demoPayload demoFetch =
      HandlerOutcome.admitted "o/r"
        [{ filename := "README.md", status := FileStatus.added, content := some "hello" }] 10 ∧
    handleWebhookIntended false demoPayload demoFetch =
      HandlerOutcome.rejectedInvalidSignature := by
  refine ⟨?_, by decide, by decide⟩
  intro sigValid payload fetchContent
  simp only [handleWebhook, verifySignatureCall, jsTruthy, Bool.not_true,
    Bool.false_eq_true, if_false]
  split
  · simp
  · split
    · simp
    · split <;> simp

/-- C7 (code bug): the source does not execute uploads in gated groups of
3.  `tempFiles.map(async ...)` initiates every upload before the chunked
loop awaits anything, so for 7 files the observable schedule is 7
initiations followed by the awaits chunked 3, 3, 1 with a 2-second pause
after the first two chunks only: the uploads of the claimed groups 2 and 3
(indices 3..6) are already in flight before group 1's completions are
awaited and before any pause, the schedule differs from the spec's grouped
schedule, and in general the first `n` events of an `n`-file batch are
always the `n` initiations — the loop groups the awaits and pauses, not
the uploads, and upload concurrency is never bounded at 3. -/
theorem uploadSchedule_eager_initiation :
    uploadScheduleSource 7 =
      [UploadEvent.initiate 0, UploadEvent.initiate 1, UploadEvent.initiate 2,
       UploadEvent.initiate 3, UploadEvent.initiate 4, UploadEvent.initiate 5,
       UploadEvent.initiate 6,
       UploadEvent.complete 0, UploadEvent.complete 1, UploadEvent.complete 2,
       UploadEvent.pauseMs 2000,
       UploadEvent.complete 3, UploadEvent.complete 4, UploadEvent.complete 5,
       UploadEvent.pauseMs 2000,
       UploadEvent.complete 6] ∧
    uploadScheduleSource 7 ≠ uploadScheduleClaimed 7 ∧
    uploadScheduleClaimed 7 =
      [UploadEvent.initiate 0, UploadEvent.initiate 1, UploadEvent.initiate 2,
       UploadEvent.complete 0, UploadEvent.complete 1, UploadEvent.complete 2,
       UploadEvent.pauseMs 2000,
       UploadEvent.initiate 3, UploadEvent.initiate 4, UploadEvent.initiate 5,
       UploadEvent.complete 3, UploadEvent.complete 4, UploadEvent.complete 5,
       UploadEvent.pauseMs 2000,
       UploadEvent.initiate 6, UploadEvent.complete 6] ∧
    (∀ n : Nat, (uploadScheduleSource n).take n =
      (List.range n).map UploadEvent.initiate) := by
  refine ⟨by decide, by decide, by decide, ?_⟩
  intro n
  unfold uploadScheduleSource
  exact List.take_left' (by simp)

end Theorems2

section Theorems3

open Pipeline Queue Batch Orchestrator CharUtil Examples

/-- Inserting by priority grows the queue by exactly one element. -/
theorem insertByPriority_length (queue : List QueueJob) (j : QueueJob) :
    (insertByPriority queue j).length = queue.length + 1 := by
  unfold insertByPriority
  cases h : queue.findIdx? (fun q => q.priority < j.priority) with
  | none => simp
  | some i =>
      simp only [spliceInsert, List.length_append, List.length_cons,
        List.length_take, List.length_drop]
      omega

/-- Recursive characterization of the `findIndex`/`splice` insertion. -/
theorem insertByPriority_cons (q : QueueJob) (rest : List QueueJob) (j : QueueJob) :
    insertByPriority (q :: rest) j =
      if q.priority < j.priority then j :: q :: rest
      else q :: insertByPriority rest j := by
  by_cases h : q.priority < j.priority
  · have hd : (decide (q.priority < j.priority)) = true := by simp [h]
    simp only [insertByPriority, List.findIdx?_cons, hd, if_true]
    simp [spliceInsert, if_pos h]
  · have hd : (decide (q.priority < j.priority)) = false := by simp [h]
    simp only [insertByPriority, List.findIdx?_cons, hd, if_false, Bool.false_eq_true,
      List.findIdx?_succ, if_neg h]
    cases hr : rest.findIdx? (fun x => x.priority < j.priority) with
    | none => simp [spliceInsert]
    | some i =>
        simp only [Option.map_some]
        simp [spliceInsert, List.take_succ_cons, List.drop_succ_cons]

/-- Membership after insertion. -/
theorem mem_insertByPriority (l : List QueueJob) (j a : QueueJob) :
    a ∈ insertByPriority l j ↔ a = j ∨ a ∈ l := by
  induction l with
  | nil => simp [insertByPriority]
  | cons q rest ih =>
      rw [insertByPriority_cons]
      by_cases h : q.priority < j.priority
      · rw [if_pos h]
        simp only [List.mem_cons]
      · rw [if_neg h]
        simp only [List.mem_cons, ih]
        try tauto

/-- Insertion preserves the queue ordering invariant when the inserted job
is fresher (larger admission counter) than everything queued. -/
theorem insertByPriority_pairwise (l : List QueueJob) (j : QueueJob)
    (hp : l.Pairwise queuePriorityOrder)
    (hfresh : ∀ a ∈ l, a.jobId < j.jobId) :
    (insertByPriority l j).Pairwise queuePriorityOrder := by
  induction l with
  | nil => simp [insertByPriority, List.pairwise_cons]
  | cons q rest ih =>
      rw [insertByPriority_cons]
      rw [List.pairwise_cons] at hp
      obtain ⟨hq, hrest⟩ := hp
      by_cases h : q.priority < j.priority
      · rw [if_pos h]
        rw [List.pairwise_cons]
        constructor
        · intro b hb
          rcases List.mem_cons.mp hb with rfl | hbr
          · exact ⟨le_of_lt h, fun he => absurd (he ▸ h) (lt_irrefl _)⟩
          · have hqb := hq b hbr
            exact ⟨le_trans hqb.1 (le_of_lt h),
              fun he => absurd (lt_of_le_of_lt (he ▸ hqb.1) h) (lt_irrefl _)⟩
        · rw [List.pairwise_cons]
          exact ⟨hq, hrest⟩
      · rw [if_neg h]
        rw [List.pairwise_cons]
        constructor
        · intro b hb
          rcases (mem_insertByPriority rest j b).mp hb with rfl | hbr
          · exact ⟨not_lt.mp h, fun _ => hfresh q (List.mem_cons_self q rest)⟩
          · exact hq b hbr
        · exact ih hrest (fun a ha => hfresh a (List.mem_cons_of_mem q ha))

/-- The insertion point is the first position whose priority is strictly
lower than the new job's; when no such position exists the job is appended. -/
theorem insertByPriority_split (l : List QueueJob) (j : QueueJob) :
    ∃ (l₁ l₂ : List QueueJob),
      l = l₁ ++ l₂ ∧
      insertByPriority l j = l₁ ++ j :: l₂ ∧
      (∀ a ∈ l₁, ¬ a.priority < j.priority) ∧
      (∀ b ∈ l₂.head?, b.priority < j.priority) := by
  induction l with
  | nil => exact ⟨[], [], rfl, by simp [insertByPriority], by simp, by simp⟩
  | cons q rest ih =>
      by_cases h : q.priority < j.priority
      · refine ⟨[], q :: rest, rfl, ?_, by simp, ?_⟩
        · rw [insertByPriority_cons, if_pos h]
          rfl
        · intro b hb
          rw [Option.mem_def] at hb
          simp only [List.head?_cons, Option.some.injEq] at hb
          rw [← hb]
          exact h
      · obtain ⟨l₁, l₂, hsplit, hins, hl₁, hl₂⟩ := ih
        refine ⟨q :: l₁, l₂, by rw [List.cons_append, ← hsplit], ?_, ?_, hl₂⟩
        · rw [insertByPriority_cons, if_neg h, hins]
          rfl
        · intro a ha
          rcases List.mem_cons.mp ha with rfl | har
          · exact h
          · exact hl₁ a har

/-- A successful admission preserves the queue invariant. -/
theorem queueInv_addJob (st : JobQueueState) (repo : String) (files : List FileChange)
    (p : Int) (id : Nat) (st' : JobQueueState) (hinv : QueueInv st)
    (h : addJob st repo files p = Except.ok (id, st')) : QueueInv st' := by
  unfold addJob at h
  split at h
  · exact absurd h (by simp)
  · simp only [Except.ok.injEq, Prod.mk.injEq] at h
    obtain ⟨hid, hst⟩ := h
    rw [← hst]
    constructor
    · exact insertByPriority_pairwise st.queue _ hinv.1 (fun a ha => hinv.2 a ha)
    · intro a ha
      rcases (mem_insertByPriority st.queue _ a).mp ha with rfl | har
      · exact Nat.lt_succ_self _
      · exact Nat.lt_trans (hinv.2 a har) (Nat.lt_succ_self _)

/-- Any admission sequence preserves the queue invariant. -/
theorem queueInv_admitSeq (st : JobQueueState) (ps : List Int) (hinv : QueueInv st) :
    QueueInv (admitSeq st ps) := by
  induction ps generalizing st with
  | nil => exact hinv
  | cons p rest ih =>
      unfold admitSeq
      cases h : addJob st "repo" [] p with
      | ok pr =>
          obtain ⟨id, st'⟩ := pr
          exact ih st' (queueInv_addJob st "repo" [] p id st' hinv h)
      | error e => exact ih st hinv

/-- C1: admission fails with the capacity error when the active queue length
is at or above the configured maximum (no job created, no state produced);
otherwise it returns the fresh job id synchronously and the queue grows by
exactly one, never exceeding the maximum. -/
theorem addJob_capacity_spec :
    ∀ (st : JobQueueState) (repository : String) (files : List FileChange) (priority : Int),
      (st.queue.length ≥ st.maxSize →
          addJob st repository files priority =
            Except.error "Queue is at maximum capacity") ∧
      (st.queue.length < st.maxSize →
          ∃ st' : JobQueueState,
            addJob st repository files priority = Except.ok (st.nextId, st') ∧
            st'.queue.length = st.queue.length + 1 ∧
            st'.queue.length ≤ st.maxSize) := by
  intro st repo files p
  constructor
  · intro h
    unfold addJob
    rw [if_pos h]
  · intro h
    have hok : addJob st repo files p =
        Except.ok (st.nextId,
          { st with
            queue := insertByPriority st.queue
              { jobId := st.nextId, repository := repo, files := files,
                priority := p, attempts := 0, status := JobStatus.pending }
            nextId := st.nextId + 1 }) := by
      unfold addJob
      rw [if_neg (by omega)]
    refine ⟨_, hok, ?_, ?_⟩
    · exact insertByPriority_length st.queue _
    · rw [show ({ st with
            queue := insertByPriority st.queue
              { jobId := st.nextId, repository := repo, files := files,
                priority := p, attempts := 0, status := JobStatus.pending }
            nextId := st.nextId + 1 } : JobQueueState).queue.length =
          st.queue.length + 1 from insertByPriority_length st.queue _]
      omega

/-- Witness for C1: a full queue (max 0) rejects; an empty queue with room
(max 1) admits and ends exactly at the maximum. -/
theorem addJob_capacity_spec_witness :
    (addJob (initialQueueState 0) "r" [] 5 =
        Except.error "Queue is at maximum capacity") ∧
    (∃ st' : JobQueueState,
        addJob (initialQueueState 1) "r" [] 5 =
          Except.ok ((initialQueueState 1).nextId, st') ∧
        st'.queue.length = (initialQueueState 1).queue.length + 1 ∧
        st'.queue.length ≤ (initialQueueState 1).maxSize) := by
  constructor
  · exact (addJob_capacity_spec (initialQueueState 0) "r" [] 5).1 (by decide)
  · exact (addJob_capacity_spec (initialQueueState 1) "r" [] 5).2 (by decide)

/-- C2: after any sequence of admissions starting from the empty queue, the
active queue is pairwise ordered by non-increasing priority with
equal-priority ties in admission order (smaller admission counter first);
and every successful admission inserts the new job at the first position
whose priority is strictly lower than the new job's (appending when no such
position exists). -/
theorem queue_ordering_spec :
    (∀ (maxSize : Nat) (ps : List Int),
        (admitSeq (initialQueueState maxSize) ps).queue.Pairwise queuePriorityOrder) ∧
    (∀ (st : JobQueueState) (repository : String) (files : List FileChange)
        (priority : Int) (id : Nat) (st' : JobQueueState),
        addJob st repository files priority = Except.ok (id, st') →
        ∃ (l₁ l₂ : List QueueJob),
          st.queue = l₁ ++ l₂ ∧
          st'.queue = l₁ ++
            { jobId := st.nextId, repository := repository, files := files,
              priority := priority, attempts := 0, status := JobStatus.pending } :: l₂ ∧
          (∀ a ∈ l₁, ¬ a.priority < priority) ∧
          (∀ b ∈ l₂.head?, b.priority < priority)) := by
  constructor
  · intro maxSize ps
    exact (queueInv_admitSeq (initialQueueState maxSize) ps
      ⟨List.Pairwise.nil, by simp [initialQueueState]⟩).1
  · intro st repo files p id st' h
    unfold addJob at h
    split at h
    · exact absurd h (by simp)
    · simp only [Except.ok.injEq, Prod.mk.injEq] at h
      obtain ⟨hid, hst⟩ := h
      obtain ⟨l₁, l₂, hsplit, hins, hl₁, hl₂⟩ := insertByPriority_split st.queue
        { jobId := st.nextId, repository := repo, files := files,
          priority := p, attempts := 0, status := JobStatus.pending }
      refine ⟨l₁, l₂, hsplit, ?_, hl₁, hl₂⟩
      rw [← hst]
      exact hins

/-- Witness for C2: the first admission into an empty queue of capacity 5
lands at the head. -/
theorem queue_ordering_spec_witness :
    ∃ (l₁ l₂ : List QueueJob),
      (initialQueueState 5).queue = l₁ ++ l₂ ∧
      ({ queue := [{ jobId := 0, repository := "r", files := [], priority := 7,
                     attempts := 0, status := JobStatus.pending }]
         nextId := 1
         maxSize := 5 } : JobQueueState).queue = l₁ ++
        { jobId := (initialQueueState 5).nextId, repository := "r", files := [],
          priority := 7, attempts := 0, status := JobStatus.pending } :: l₂ ∧
      (∀ a ∈ l₁, ¬ a.priority < 7) ∧
      (∀ b ∈ l₂.head?, b.priority < 7) :=
  queue_ordering_spec.2 (initialQueueState 5) "r" [] 7 0
    { queue := [{ jobId := 0, repository := "r", files := [], priority := 7,
                  attempts := 0, status := JobStatus.pending }]
      nextId := 1
      maxSize := 5 } (by decide)

end Theorems3

section Theorems4

open Pipeline Queue Batch Orchestrator CharUtil Examples

/-- Each applied lifecycle event adds 1 to `attempts` exactly when it is a
`dispatch` (the `attempts++` at the top of `processJob`). -/
theorem jobStep_attempts (s : JobRunState) (e : JobEvent) (s' : JobRunState)
    (d : Option Nat) (h : jobStep s e = some (s', d)) :
    s'.attempts = s.attempts + (if isDispatch e then 1 else 0) := by
  cases e with
  | dispatch =>
      simp only [jobStep] at h
      split at h
      · simp only [Option.some.injEq, Prod.mk.injEq] at h
        rw [← h.1]
        simp [isDispatch]
      · exact absurd h (by simp)
  | finishOk =>
      simp only [jobStep] at h
      split at h
      · simp only [Option.some.injEq, Prod.mk.injEq] at h
        rw [← h.1]
        simp [isDispatch]
      · exact absurd h (by simp)
  | finishErr msg =>
      simp only [jobStep] at h
      split at h
      · split at h <;>
          (simp only [Option.some.injEq, Prod.mk.injEq] at h
           rw [← h.1]
           simp [isDispatch])
      · exact absurd h (by simp)
  | backoffElapsed =>
      simp only [jobStep] at h
      split at h
      · simp only [Option.some.injEq, Prod.mk.injEq] at h
        rw [← h.1]
        simp [isDispatch]
      · exact absurd h (by simp)

/-- Over a whole trace, `attempts` grows by exactly the number of dispatch
events. -/
theorem runTrace_attempts_count :
    ∀ (t : List JobEvent) (s₀ s : JobRunState), runTrace s₀ t = some s →
      s.attempts = s₀.attempts + countDispatch t := by
  intro t
  induction t with
  | nil =>
      intro s₀ s h
      simp only [runTrace, Option.some.injEq] at h
      rw [← h]
      simp [countDispatch]
  | cons e es ih =>
      intro s₀ s h
      simp only [runTrace] at h
      cases hstep : jobStep s₀ e with
      | none => rw [hstep] at h; exact absurd h (by simp)
      | some pr =>
          obtain ⟨s₁, d⟩ := pr
          rw [hstep] at h
          have h1 := jobStep_attempts s₀ e s₁ d hstep
          have h2 := ih s₁ s h
          rw [h2, h1]
          simp only [countDispatch, List.countP_cons]
          omega

/-- Trace invariant: `attempts` never exceeds 3, and a job that is
`pending` or `retrying` (i.e. can still be dispatched or re-queued) has
strictly fewer than 3 attempts. -/
theorem runTrace_attempts_bound :
    ∀ (t : List JobEvent) (s₀ s : JobRunState), runTrace s₀ t = some s →
      s₀.attempts ≤ 3 →
      ((s₀.status = JobStatus.pending ∨ s₀.status = JobStatus.retrying) →
        s₀.attempts < 3) →
      s.attempts ≤ 3 ∧
      ((s.status = JobStatus.pending ∨ s.status = JobStatus.retrying) →
        s.attempts < 3) := by
  intro t
  induction t with
  | nil =>
      intro s₀ s h h1 h2
      simp only [runTrace, Option.some.injEq] at h
      rw [← h]
      exact ⟨h1, h2⟩
  | cons e es ih =>
      intro s₀ s h h1 h2
      simp only [runTrace] at h
      cases hstep : jobStep s₀ e with
      | none => rw [hstep] at h; exact absurd h (by simp)
      | some pr =>
          obtain ⟨s₁, d⟩ := pr
          rw [hstep] at h
          refine ih s₁ s h ?_ ?_
          all_goals
            cases e with
            | dispatch =>
                simp only [jobStep] at hstep
                split at hstep
                · rename_i hpend
                  simp only [Option.some.injEq, Prod.mk.injEq] at hstep
                  rw [← hstep.1]
                  have := h2 (Or.inl hpend)
                  simp <;> omega
                · exact absurd hstep (by simp)
            | finishOk =>
                simp only [jobStep] at hstep
                split at hstep
                · simp only [Option.some.injEq, Prod.mk.injEq] at hstep
                  rw [← hstep.1]
                  simp <;> omega
                · exact absurd hstep (by simp)
            | finishErr msg =>
                simp only [jobStep] at hstep
                split at hstep
                · split at hstep <;>
                    (rename_i hlt
                     simp only [Option.some.injEq, Prod.mk.injEq] at hstep
                     rw [← hstep.1]
                     simp <;> omega)
                · exact absurd hstep (by simp)
            | backoffElapsed =>
                simp only [jobStep] at hstep
                split at hstep
                · rename_i hret
                  simp only [Option.some.injEq, Prod.mk.injEq] at hstep
                  rw [← hstep.1]
                  have := h2 (Or.inr hret)
                  simp <;> omega
                · exact absurd hstep (by simp)

end Theorems4

section Theorems5

open Pipeline Queue Batch Orchestrator CharUtil Examples

/-- C3: along any valid lifecycle trace from admission, `attempts` equals
the number of batch-processor invocations (dispatches) and never exceeds 3;
a failure while `attempts < 3` moves the job to `retrying` with a scheduled
backoff of `2^attempts * 1000` milliseconds (i.e. `2^attempts` seconds),
after which the backoff timer returns it to `pending`; a failure with
`attempts` at the maximum happens exactly at `attempts = 3` and moves the
job to the terminal `failed` state with the error message recorded in the
completion map; and a `failed` job accepts no further event — in particular
it can never be dispatched again. -/
theorem processJob_attempts_spec (t : List JobEvent) (s : JobRunState)
    (h : runTrace initialJobState t = some s) :
    s.attempts = countDispatch t ∧
    s.attempts ≤ 3 ∧
    (∀ msg, s.status = JobStatus.processing → s.attempts < 3 →
        jobStep s (JobEvent.finishErr msg) =
          some ({ s with status := JobStatus.retrying }, some (2 ^ s.attempts * 1000))) ∧
    (s.status = JobStatus.retrying →
        jobStep s JobEvent.backoffElapsed =
          some ({ s with status := JobStatus.pending }, none)) ∧
    (∀ msg, s.status = JobStatus.processing → ¬ s.attempts < 3 →
        s.attempts = 3 ∧
        jobStep s (JobEvent.finishErr msg) =
          some ({ s with
                  status := JobStatus.failed
                  error := some msg
                  completedEntry := some (JobStatus.failed, some msg) }, none)) ∧
    (s.status = JobStatus.failed → ∀ e, jobStep s e = none) := by
  have hb := runTrace_attempts_bound t initialJobState s h (by decide) (by decide)
  refine ⟨?_, hb.1, ?_, ?_, ?_, ?_⟩
  · have := runTrace_attempts_count t initialJobState s h
    simpa [initialJobState] using this
  · intro msg hproc hlt
    simp [jobStep, hproc, hlt, retryDelayMs]
  · intro hret
    simp [jobStep, hret]
  · intro msg hproc hge
    refine ⟨by omega, ?_⟩
    simp [jobStep, hproc, hge]
  · intro hfail e
    cases e <;> simp [jobStep, hfail]

/-- Witness for C3: the trace dispatch → failure → backoff → dispatch →
success reaches `completed` with `attempts = 2`, the number of dispatches. -/
theorem processJob_attempts_spec_witness :
    demoTraceState.attempts = countDispatch demoTrace :=
  (processJob_attempts_spec demoTrace demoTraceState (by decide)).1

end Theorems5

section Theorems6

open Pipeline Queue Batch Orchestrator CharUtil Examples

/-- A successful extraction is exactly the supported-and-content-bearing
filter over the flattened commit changes, with content assigned from the
fetch oracle for non-removed files. -/
theorem getChangedFilesCore_ok_shape (payload : WebhookPayload)
    (fetchContent : String → Option String) (l : List FileChange)
    (h : getChangedFilesCore payload fetchContent = Except.ok l) :
    ∃ changed,
      collectCommitChanges
          ((payload.commits.getD []).filter (fun c => !isMergeCommitMessage c.message)) =
        Except.ok changed ∧
      l = (((changed.filter (fun f => shouldProcessFile f.filename)).map
            (fun f => if f.status = FileStatus.removed then f
                      else { f with content := fetchContent f.filename })).filter
            (fun f => (f.status == FileStatus.removed) || contentTruthy f.content)) := by
  simp only [getChangedFilesCore] at h
  cases hc : collectCommitChanges
      ((payload.commits.getD []).filter (fun c => !isMergeCommitMessage c.message)) with
  | error e =>
      rw [hc] at h
      simp [Bind.bind, Except.bind] at h
  | ok changed =>
      rw [hc] at h
      simp only [Bind.bind, Except.bind, pure, Except.pure, Except.ok.injEq] at h
      exact ⟨changed, rfl, h.symm⟩

/-- When every commit object carries all three file lists, the per-commit
flattening cannot fail, whatever the fetch oracle does. -/
theorem collectCommitChanges_ok (cs : List CommitPayload)
    (hall : ∀ c ∈ cs, c.added.isSome ∧ c.modified.isSome ∧ c.removed.isSome) :
    ∃ l, collectCommitChanges cs = Except.ok l := by
  induction cs with
  | nil => exact ⟨[], rfl⟩
  | cons c rest ih =>
      obtain ⟨ha, hm, hr⟩ := hall c (List.mem_cons_self c rest)
      obtain ⟨a, hca⟩ := Option.isSome_iff_exists.mp ha
      obtain ⟨m, hcm⟩ := Option.isSome_iff_exists.mp hm
      obtain ⟨r, hcr⟩ := Option.isSome_iff_exists.mp hr
      obtain ⟨lrest, hrest⟩ := ih (fun x hx => hall x (List.mem_cons_of_mem c hx))
      refine ⟨(a.map fun f => { filename := f, status := FileStatus.added })
        ++ (m.map fun f => { filename := f, status := FileStatus.modified })
        ++ (r.map fun f => { filename := f, status := FileStatus.removed })
        ++ lrest, ?_⟩
      unfold collectCommitChanges commitFileChanges
      rw [hca, hcm, hcr, hrest]
      rfl

/-- Inverting a successful `getChangedFiles` run: the pre-`try` repository
accesses succeeded, and the returned list is either the caught-error `[]`
or the successful core extraction. -/
theorem getChangedFiles_ok_cases (payload : WebhookPayload)
    (fetchContent : String → Option String) (l : List FileChange)
    (h : getChangedFiles payload fetchContent = Except.ok l) :
    l = [] ∨ getChangedFilesCore payload fetchContent = Except.ok l := by
  simp only [getChangedFiles] at h
  cases hrep : payload.repository with
  | none =>
      rw [hrep] at h
      simp [fieldAccess, Bind.bind, Except.bind] at h
  | some r =>
      rw [hrep] at h
      simp only [fieldAccess, Bind.bind, Except.bind] at h
      cases hown : r.owner with
      | none =>
          rw [hown] at h
          simp [fieldAccess] at h
      | some o =>
          rw [hown] at h
          simp only [fieldAccess] at h
          cases hcore : getChangedFilesCore payload fetchContent with
          | ok lc =>
              rw [hcore] at h
              simp only [pure, Except.pure, Except.ok.injEq] at h
              right
              rw [h]
          | error e =>
              rw [hcore] at h
              simp only [pure, Except.pure, Except.ok.injEq] at h
              left
              exact h.symm

/-- C8 (amended): every extracted file is `removed` or carries non-empty
fetched content; a non-removed extracted file's content is exactly what the
fetch oracle returned (so a failed fetch silently drops that file without
aborting the others); a payload whose repository and owner objects are
present and whose commits carry all three file lists extracts successfully
whatever fetches fail; a failure raised inside the extractor's `try` (a
commit-field access) is caught and yields `[]`; but a payload lacking
`repository`, or whose repository lacks `owner`, is read BEFORE the `try`
and makes the extraction throw instead of returning `[]`. -/
theorem getChangedFiles_spec :
    (∀ (payload : WebhookPayload) (fetchContent : String → Option String)
        (l : List FileChange) (f : FileChange),
        getChangedFiles payload fetchContent = Except.ok l → f ∈ l →
        (f.status = FileStatus.removed ∨ ∃ c, f.content = some c ∧ c ≠ "")) ∧
    (∀ (payload : WebhookPayload) (fetchContent : String → Option String)
        (l : List FileChange) (f : FileChange),
        getChangedFiles payload fetchContent = Except.ok l → f ∈ l →
        f.status ≠ FileStatus.removed → f.content = fetchContent f.filename) ∧
    (∀ (payload : WebhookPayload) (fetchContent : String → Option String),
        (∃ r, payload.repository = some r ∧ r.owner.isSome) →
        (∀ c ∈ payload.commits.getD [],
            c.added.isSome ∧ c.modified.isSome ∧ c.removed.isSome) →
        ∃ l, getChangedFiles payload fetchContent = Except.ok l) ∧
    (∀ (payload : WebhookPayload) (fetchContent : String → Option String) (e : String),
        (∃ r, payload.repository = some r ∧ r.owner.isSome) →
        getChangedFilesCore payload fetchContent = Except.error e →
        getChangedFiles payload fetchContent = Except.ok []) ∧
    (∀ (payload : WebhookPayload) (fetchContent : String → Option String),
        (payload.repository = none ∨
          ∃ r, payload.repository = some r ∧ r.owner = none) →
        getChangedFiles payload fetchContent =
          Except.error "TypeError: cannot read properties of undefined") ∧
    getChangedFiles dropPayload dropFetch =
      Except.ok [{ filename := "b.md", status := FileStatus.added, content := some "x" }] := by
  refine ⟨?_, ?_, ?_, ?_, ?_, by decide⟩
  · intro payload fetchContent l f h hf
    rcases getChangedFiles_ok_cases payload fetchContent l h with rfl | hcore
    · simp at hf
    · obtain ⟨changed, _, hl⟩ := getChangedFilesCore_ok_shape payload fetchContent l hcore
      rw [hl] at hf
      have hpred := (List.mem_filter.mp hf).2
      rcases Bool.or_eq_true_iff.mp hpred with hrem | hcnt
      · exact Or.inl (beq_iff_eq.mp hrem)
      · right
        cases hcontent : f.content with
        | none => rw [hcontent] at hcnt; simp [contentTruthy] at hcnt
        | some c =>
            refine ⟨c, rfl, ?_⟩
            rw [hcontent] at hcnt
            simpa [contentTruthy] using hcnt
  · intro payload fetchContent l f h hf hnotrem
    rcases getChangedFiles_ok_cases payload fetchContent l h with rfl | hcore
    · simp at hf
    · obtain ⟨changed, _, hl⟩ := getChangedFilesCore_ok_shape payload fetchContent l hcore
      rw [hl] at hf
      have hmem := List.mem_of_mem_filter hf
      obtain ⟨g, hgmem, hg⟩ := List.mem_map.mp hmem
      by_cases hgrem : g.status = FileStatus.removed
      · rw [if_pos hgrem] at hg
        exact absurd (hg ▸ hgrem) hnotrem
      · rw [if_neg hgrem] at hg
        rw [← hg]
  · intro payload fetchContent hrepo hall
    obtain ⟨r, hrep, hown⟩ := hrepo
    obtain ⟨o, ho⟩ := Option.isSome_iff_exists.mp hown
    have hsub : ∀ c ∈ (payload.commits.getD []).filter
        (fun c => !isMergeCommitMessage c.message),
        c.added.isSome ∧ c.modified.isSome ∧ c.removed.isSome :=
      fun c hc => hall c (List.mem_of_mem_filter hc)
    obtain ⟨lc, hlc⟩ := collectCommitChanges_ok _ hsub
    have hcore : getChangedFilesCore payload fetchContent =
        Except.ok (((lc.filter (fun f => shouldProcessFile f.filename)).map
          (fun f => if f.status = FileStatus.removed then f
                    else { f with content := fetchContent f.filename })).filter
          (fun f => (f.status == FileStatus.removed) || contentTruthy f.content)) := by
      simp only [getChangedFilesCore]
      rw [hlc]
      rfl
    refine ⟨(((lc.filter (fun f => shouldProcessFile f.filename)).map
        (fun f => if f.status = FileStatus.removed then f
                  else { f with content := fetchContent f.filename })).filter
        (fun f => (f.status == FileStatus.removed) || contentTruthy f.content)), ?_⟩
    simp only [getChangedFiles]
    rw [hrep]
    simp only [fieldAccess, Bind.bind, Except.bind]
    rw [ho]
    simp only [fieldAccess]
    rw [hcore]
    rfl
  · intro payload fetchContent e hrepo hcore
    obtain ⟨r, hrep, hown⟩ := hrepo
    obtain ⟨o, ho⟩ := Option.isSome_iff_exists.mp hown
    simp only [getChangedFiles]
    rw [hrep]
    simp only [fieldAccess, Bind.bind, Except.bind]
    rw [ho]
    simp only [fieldAccess]
    rw [hcore]
    rfl
  · intro payload fetchContent hmiss
    rcases hmiss with hrep | ⟨r, hrep, hown⟩
    · simp only [getChangedFiles]
      rw [hrep]
      simp [fieldAccess, Bind.bind, Except.bind]
    · simp only [getChangedFiles]
      rw [hrep]
      simp [fieldAccess, Bind.bind, Except.bind, hown]

/-- C8 counterexample (to the original universal): a payload whose
repository object lacks `owner` makes `getChangedFiles` propagate the
`TypeError` raised before its `try` — it does not yield an empty list. -/
theorem getChangedFiles_propagates_counterexample :
    getChangedFiles noOwnerPayload demoFetch =
      Except.error "TypeError: cannot read properties of undefined" ∧
    getChangedFiles noOwnerPayload demoFetch ≠
      Except.ok ([] : List FileChange) := by
  exact ⟨by decide, by decide⟩

/-- Witness for C8: the hypotheses discharged on concrete payloads — the
surviving file of `dropPayload` has non-empty content; a complete payload
extracts successfully even when every fetch fails; the payload with a
missing commit `added` field yields `Except.ok []`; and the payload with a
missing repository owner propagates the error. -/
theorem getChangedFiles_spec_witness :
    (({ filename := "b.md", status := FileStatus.added, content := some "x" } :
        FileChange).status = FileStatus.removed ∨
      ∃ c, ({ filename := "b.md", status := FileStatus.added, content := some "x" } :
        FileChange).content = some c ∧ c ≠ "") ∧
    (∃ l, getChangedFiles demoPayload (fun _ => none) = Except.ok l) ∧
    getChangedFiles badPayload demoFetch = Except.ok [] ∧
    getChangedFiles noOwnerPayload demoFetch =
      Except.error "TypeError: cannot read properties of undefined" := by
  refine ⟨?_, ?_, ?_, ?_⟩
  · exact getChangedFiles_spec.1 dropPayload dropFetch
      [{ filename := "b.md", status := FileStatus.added, content := some "x" }]
      { filename := "b.md", status := FileStatus.added, content := some "x" }
      (by decide) (by decide)
  · exact getChangedFiles_spec.2.2.1 demoPayload (fun _ => none)
      ⟨{ owner := some { login := some "o" }, name := some "r", full_name := some "o/r" },
        by decide, by decide⟩ (by decide)
  · exact getChangedFiles_spec.2.2.2.1 badPayload demoFetch
      "TypeError: cannot read properties of undefined"
      ⟨{ owner := some { login := some "o" }, name := some "r", full_name := some "o/r" },
        by decide, by decide⟩ (by decide)
  · exact getChangedFiles_spec.2.2.2.2.1 noOwnerPayload demoFetch
      (Or.inr ⟨{ owner := none, name := some "r", full_name := some "o/r" },
        by decide, by decide⟩)

end Theorems6
